import Mathlib

/-!
Shallow embedding of the RUC validation module of the HMG-Demo repository
(source file exporting `validateRUC`, `getRUCError`, `validateUsername`,
`validatePassword`, `validateClientName`, and the constants module exporting
`RUC_LENGTH`, `RUC_VALID_PREFIXES`, `RUC_FACTORS`).

Strings are modelled as `List Char`; JavaScript `String.prototype.trim` is
modelled by removing leading and trailing whitespace characters
(`Char.isWhitespace`), and the regular expressions `^\d{11}$` / `^\d+$` by
their evident length/digit conditions on ASCII characters.
-/

namespace HMG

/-- Whitespace predicate used by trimming. -/
def isWS (c : Char) : Bool := c.isWhitespace

/-- JS `s.trim()`: remove surrounding whitespace. -/
def trim (s : List Char) : List Char :=
  ((s.dropWhile isWS).reverse.dropWhile isWS).reverse

/-- Constant `RUC_LENGTH = 11` from the constants module. -/
def RUC_LENGTH : Nat := 11

/-- Constant `RUC_VALID_PREFIXES = ['10', '15', '17', '20']`. -/
def RUC_VALID_PREFIXES : List (List Char) :=
  [['1', '0'], ['1', '5'], ['1', '7'], ['2', '0']]

/-- Constant `RUC_FACTORS = [5, 4, 3, 2, 7, 6, 5, 4, 3, 2]`. -/
def RUC_FACTORS : List Nat := [5, 4, 3, 2, 7, 6, 5, 4, 3, 2]

/-- JS `s.startsWith(p)`. -/
def startsWith (s p : List Char) : Bool := decide (s.take p.length = p)

/-- The test `/^\d{11}$/.test s`: exactly 11 ASCII decimal digits. -/
def elevenDigits (s : List Char) : Bool :=
  decide (s.length = 11) && s.all Char.isDigit

/-- JS `Number(c)` on a single decimal-digit character. -/
def digitVal (c : Char) : Nat := c.toNat - '0'.toNat

/-- The loop `for (i = 0; i < 10; i++) sum += digits[i] * RUC_FACTORS[i]`. -/
def rucSum (digits : List Nat) : Nat :=
  (List.range 10).foldl (fun sum i => sum + digits.getD i 0 * RUC_FACTORS.getD i 0) 0

/-- Lines computing `remainder`, `checkDigit` and the normalised
`expectedDigit` inside `validateRUC`. -/
def expectedDigitOf (digits : List Nat) : Nat :=
  let remainder := rucSum digits % 11
  let checkDigit := 11 - remainder
  if checkDigit = 10 then 0 else if checkDigit = 11 then 1 else checkDigit

/-- Function `validateRUC` from the validation module, line for line:
trim, `^\d{11}$` test, accepted-start test via `startsWith`, then the
modulo-11 check digit comparison against `digits[10]`. -/
def validateRUC (ruc : List Char) : Bool :=
  let cleanRuc := trim ruc
  if ¬ (elevenDigits cleanRuc = true) then false
  else if ¬ (RUC_VALID_PREFIXES.any (fun p => startsWith cleanRuc p) = true) then false
  else
    let digits := cleanRuc.map digitVal
    decide (digits.getD 10 0 = expectedDigitOf digits)

/-- Function `getRUCError` from the validation module: first-match-wins cascade of
checks, returning `none` when the input is valid. -/
def getRUCError (ruc : List Char) : Option String :=
  let cleanRuc := trim ruc
  if cleanRuc.length = 0 then
    some "El RUC es requerido"
  else if ¬ (0 < cleanRuc.length ∧ cleanRuc.all Char.isDigit = true) then
    some "El RUC solo debe contener números"
  else if ¬ (cleanRuc.length = RUC_LENGTH) then
    some ("El RUC debe tener exactamente " ++ toString RUC_LENGTH ++ " dígitos")
  else if ¬ (RUC_VALID_PREFIXES.any (fun p => startsWith cleanRuc p) = true) then
    some "El RUC debe iniciar con 10, 15, 17 o 20"
  else if ¬ (validateRUC cleanRuc = true) then
    some "El RUC ingresado no es válido"
  else
    none

/-- Function `validateUsername`: trimmed length in `[3, 50]`. -/
def validateUsername (username : List Char) : Bool :=
  let clean := trim username
  decide (3 ≤ clean.length) && decide (clean.length ≤ 50)

/-- Function `validatePassword`: the source only checks `password.length >= 4`
(no trimming, no upper bound). -/
def validatePassword (password : List Char) : Bool :=
  decide (4 ≤ password.length)

/-- Function `validateClientName`: trimmed length in `[2, 200]`. -/
def validateClientName (name : List Char) : Bool :=
  let clean := trim name
  decide (2 ≤ clean.length) && decide (clean.length ≤ 200)

/-- Index-checked variant of the summation loop of `validateRUC`: every
access `digits[i]` / `RUC_FACTORS[i]` is performed with `List.get?` and any
out-of-range access aborts with `none`. -/
def rucSumChecked (digits : List Nat) : Option Nat :=
  (List.range 10).foldl
    (fun acc i =>
      match acc, digits.get? i, RUC_FACTORS.get? i with
      | some s, some d, some f => some (s + d * f)
      | _, _, _ => none)
    (some 0)

/-- Index-checked variant of `validateRUC`: identical control flow, but all
array indexing (`digits[i]` for `i < 10` and `digits[10]`) is fallible;
`none` signals an out-of-range access. -/
def validateRUCChecked (ruc : List Char) : Option Bool :=
  let cleanRuc := trim ruc
  if ¬ (elevenDigits cleanRuc = true) then some false
  else if ¬ (RUC_VALID_PREFIXES.any (fun p => startsWith cleanRuc p) = true) then some false
  else
    let digits := cleanRuc.map digitVal
    match rucSumChecked digits, digits.get? 10 with
    | some sum, some d10 =>
        let remainder := sum % 11
        let checkDigit := 11 - remainder
        let expected := if checkDigit = 10 then 0 else if checkDigit = 11 then 1 else checkDigit
        some (decide (d10 = expected))
    | _, _ => none

/-- The weighted sum `Σ d[i]*weight[i] for i in 0..9` exactly as the
specification phrases it (a sum over the mapped index range). -/
def specRUCSum (digits : List Nat) : Nat :=
  ((List.range 10).map (fun i => digits.getD i 0 * RUC_FACTORS.getD i 0)).sum

/-- The validity predicate written from the specification text: after
trimming, exactly 11 ASCII decimal digits; the first two characters form one
of the accepted two-character sequences; and digit 10 equals the normalised
modulo-11 check digit computed from digits 0..9. -/
def specValidRUC (s : List Char) : Bool :=
  let t := trim s
  (decide (t.length = 11 ∧ ∀ c ∈ t, c.isDigit = true)) &&
  (decide (t.take 2 ∈ RUC_VALID_PREFIXES)) &&
  (let d := t.map digitVal
   let remainder := specRUCSum d % 11
   let checkDigit := 11 - remainder
   let expected := if checkDigit = 10 then 0 else if checkDigit = 11 then 1 else checkDigit
   decide (d.getD 10 0 = expected))

/-- Canonical character for a decimal digit value. -/
def digitToChar (d : Nat) : Char :=
  match d with
  | 0 => '0' | 1 => '1' | 2 => '2' | 3 => '3' | 4 => '4'
  | 5 => '5' | 6 => '6' | 7 => '7' | 8 => '8' | _ => '9'

/-- The specification's known valid example "20123456786". -/
def rucOK : List Char := ['2', '0', '1', '2', '3', '4', '5', '6', '7', '8', '6']

/-- The first ten characters of the known valid example. -/
def rucBody10 : List Char := ['2', '0', '1', '2', '3', '4', '5', '6', '7', '8']

example : validateRUC rucOK = true := by decide
example : validateRUC ['2','0','1','2','3','4','5','6','7','8','0'] = false := by decide
example : getRUCError rucOK = none := by decide
example : getRUCError [] = some "El RUC es requerido" := by decide
example : specValidRUC rucOK = true := by decide

/-! ### Helper lemmas about trimming -/

theorem head?_dropWhile_false (p : Char → Bool) (l : List Char) :
    ∀ c, (l.dropWhile p).head? = some c → p c = false := by
  induction l with
  | nil => intro c h; simp at h
  | cons a as ih =>
      intro c h
      by_cases hp : p a
      · rw [List.dropWhile_cons_of_pos hp] at h
        exact ih c h
      · rw [List.dropWhile_cons_of_neg hp] at h
        simp only [List.head?_cons, Option.some.injEq] at h
        subst h
        exact Bool.of_not_eq_true hp

theorem dropWhile_eq_self_of_head (p : Char → Bool) (l : List Char)
    (h : ∀ c, l.head? = some c → p c = false) : l.dropWhile p = l := by
  cases l with
  | nil => rfl
  | cons a as =>
      have ha := h a rfl
      rw [List.dropWhile_cons_of_neg (by simp [ha])]

theorem dropWhile_idem (p : Char → Bool) (l : List Char) :
    (l.dropWhile p).dropWhile p = l.dropWhile p :=
  dropWhile_eq_self_of_head p _ (head?_dropWhile_false p l)

theorem dropWhile_suffix_ex (p : Char → Bool) (l : List Char) :
    ∃ u, u ++ l.dropWhile p = l := by
  induction l with
  | nil => exact ⟨[], rfl⟩
  | cons a as ih =>
      by_cases hp : p a
      · obtain ⟨u, hu⟩ := ih
        exact ⟨a :: u, by rw [List.dropWhile_cons_of_pos hp, List.cons_append, hu]⟩
      · exact ⟨[], by rw [List.dropWhile_cons_of_neg hp, List.nil_append]⟩

theorem getLast?_append_right (u t : List Char) (c : Char) (h : t.getLast? = some c) :
    (u ++ t).getLast? = some c := by
  have hne : t ≠ [] := by
    intro he; rw [he] at h; simp at h
  rw [← List.head?_reverse] at h ⊢
  rw [List.reverse_append]
  cases hr : t.reverse with
  | nil => rw [hr] at h; simp at h
  | cons x xs => rw [hr] at h; simpa using h

/-- The head of `trim`'s auxiliary end-trimming step comes from the head of
its argument. -/
theorem head?_dropEnd (l : List Char) (c : Char)
    (h : ((l.reverse.dropWhile isWS).reverse).head? = some c) : l.head? = some c := by
  rw [List.head?_reverse] at h
  obtain ⟨u, hu⟩ := dropWhile_suffix_ex isWS l.reverse
  have : (u ++ l.reverse.dropWhile isWS).getLast? = some c :=
    getLast?_append_right u _ c h
  rw [hu, List.getLast?_reverse] at this
  exact this

theorem trim_idem (s : List Char) : trim (trim s) = trim s := by
  unfold trim
  set a := s.dropWhile isWS with ha
  have hhead : ∀ c, ((a.reverse.dropWhile isWS).reverse).head? = some c → isWS c = false := by
    intro c hc
    have := head?_dropEnd a c hc
    rw [ha] at this
    exact head?_dropWhile_false isWS s c this
  rw [dropWhile_eq_self_of_head isWS _ hhead]
  rw [List.reverse_reverse, dropWhile_idem]

theorem trim_of_no_ws (l : List Char) (h : ∀ c ∈ l, isWS c = false) : trim l = l := by
  unfold trim
  have h1 : l.dropWhile isWS = l := by
    apply dropWhile_eq_self_of_head
    intro c hc
    cases l with
    | nil => simp at hc
    | cons a as =>
        simp only [List.head?_cons, Option.some.injEq] at hc
        subst hc
        exact h _ (List.mem_cons_self ..)
  rw [h1]
  have h2 : l.reverse.dropWhile isWS = l.reverse := by
    apply dropWhile_eq_self_of_head
    intro c hc
    cases hr : l.reverse with
    | nil => rw [hr] at hc; simp at hc
    | cons a as =>
        rw [hr] at hc
        simp only [List.head?_cons, Option.some.injEq] at hc
        subst hc
        apply h
        rw [← List.mem_reverse, hr]
        exact List.mem_cons_self ..
  rw [h2, List.reverse_reverse]

/-! ### Characterisation of `validateRUC` and `getRUCError` -/

theorem any_startsWith_iff (t : List Char) :
    (RUC_VALID_PREFIXES.any (fun p => startsWith t p) = true) ↔
      t.take 2 ∈ RUC_VALID_PREFIXES := by
  simp only [RUC_VALID_PREFIXES, startsWith, List.any_cons, List.any_nil,
    Bool.or_eq_true, decide_eq_true_eq, Bool.false_eq_true, or_false,
    List.mem_cons, List.not_mem_nil]
  norm_num

theorem foldl_add_eq_sum (f : Nat → Nat) (l : List Nat) (a : Nat) :
    l.foldl (fun s i => s + f i) a = a + (l.map f).sum := by
  induction l generalizing a with
  | nil => simp
  | cons x xs ih =>
      rw [List.foldl_cons, ih, List.map_cons, List.sum_cons, Nat.add_assoc]

theorem rucSum_eq_specRUCSum (d : List Nat) : rucSum d = specRUCSum d := by
  unfold rucSum specRUCSum
  rw [foldl_add_eq_sum, Nat.zero_add]

theorem validateRUC_eq_true_iff (s : List Char) :
    validateRUC s = true ↔
      ((trim s).length = 11 ∧ (trim s).all Char.isDigit = true ∧
       (trim s).take 2 ∈ RUC_VALID_PREFIXES ∧
       ((trim s).map digitVal).getD 10 0 = expectedDigitOf ((trim s).map digitVal)) := by
  unfold validateRUC elevenDigits
  simp only [any_startsWith_iff]
  by_cases h1 : (trim s).length = 11 <;> by_cases h2 : (trim s).all Char.isDigit = true <;>
    by_cases h3 : (trim s).take 2 ∈ RUC_VALID_PREFIXES <;>
      simp [h1, h2, h3]

theorem validateRUC_trim (s : List Char) : validateRUC (trim s) = validateRUC s := by
  unfold validateRUC
  rw [trim_idem]

theorem getRUCError_eq (s : List Char) :
    getRUCError s =
      (if (trim s).length = 0 then some "El RUC es requerido"
       else if ¬ ((trim s).all Char.isDigit = true) then some "El RUC solo debe contener números"
       else if ¬ ((trim s).length = 11) then some "El RUC debe tener exactamente 11 dígitos"
       else if ¬ ((trim s).take 2 ∈ RUC_VALID_PREFIXES) then some "El RUC debe iniciar con 10, 15, 17 o 20"
       else if ¬ (validateRUC s = true) then some "El RUC ingresado no es válido"
       else none) := by
  have hmsg : "El RUC debe tener exactamente " ++ toString RUC_LENGTH ++ " dígitos" =
      "El RUC debe tener exactamente 11 dígitos" := by decide
  simp only [getRUCError]
  rw [validateRUC_trim, hmsg]
  simp only [any_startsWith_iff]
  by_cases h0 : (trim s).length = 0
  · simp [h0]
  · have hpos : 0 < (trim s).length := Nat.pos_of_ne_zero h0
    by_cases hall : (trim s).all Char.isDigit = true
    · by_cases h11 : (trim s).length = 11
      · by_cases hpre : (trim s).take 2 ∈ RUC_VALID_PREFIXES
        · by_cases hv : validateRUC s = true <;>
            simp [h0, hpos, hall, h11, hpre, hv, RUC_LENGTH]
        · simp [h0, hpos, hall, h11, hpre, RUC_LENGTH]
      · simp [h0, hpos, hall, h11, RUC_LENGTH]
    · simp [h0, hpos, hall, RUC_LENGTH]

/-! ### In-range indexing: the checked variant never fails -/

theorem checked_foldl_eq (d : List Nat) (idxs : List Nat)
    (h : ∀ i ∈ idxs, i < d.length ∧ i < RUC_FACTORS.length) (s : Nat) :
    (idxs.foldl
      (fun acc i =>
        match acc, d.get? i, RUC_FACTORS.get? i with
        | some t, some dv, some f => some (t + dv * f)
        | _, _, _ => none)
      (some s))
    = some (idxs.foldl (fun t i => t + d.getD i 0 * RUC_FACTORS.getD i 0) s) := by
  induction idxs generalizing s with
  | nil => rfl
  | cons i rest ih =>
      obtain ⟨h1, h2⟩ := h i (List.mem_cons_self ..)
      rw [List.foldl_cons, List.foldl_cons]
      rw [List.get?_eq_get h1, List.get?_eq_get h2]
      have hd : d.getD i 0 = d.get ⟨i, h1⟩ := by
        rw [List.getD_eq_get?, List.get?_eq_get h1]
        rfl
      have hf : RUC_FACTORS.getD i 0 = RUC_FACTORS.get ⟨i, h2⟩ := by
        rw [List.getD_eq_get?, List.get?_eq_get h2]
        rfl
      rw [hd, hf]
      exact ih (fun j hj => h j (List.mem_cons_of_mem _ hj)) _

theorem rucSumChecked_eq (d : List Nat) (h : 10 ≤ d.length) :
    rucSumChecked d = some (rucSum d) := by
  unfold rucSumChecked rucSum
  apply checked_foldl_eq
  intro i hi
  have hi10 : i < 10 := List.mem_range.mp hi
  constructor
  · omega
  · rw [(by decide : RUC_FACTORS.length = 10)]
    exact hi10

/-! ### Digit characters -/

theorem digit_not_ws (c : Char) (h : c.isDigit = true) : isWS c = false := by
  unfold isWS
  by_contra hw
  rw [Bool.not_eq_false, Char.isWhitespace] at hw
  simp only [Bool.or_eq_true, decide_eq_true_eq] at hw
  rcases hw with ((h1 | h1) | h1) | h1 <;> (subst h1; exact absurd h (by decide))

theorem digitToChar_spec :
    ∀ d : Nat, d ≤ 9 →
      ((digitToChar d).isDigit = true ∧ digitVal (digitToChar d) = d ∧
        isWS (digitToChar d) = false) := by
  decide

theorem expectedDigitOf_le_nine (d : List Nat) : expectedDigitOf d ≤ 9 := by
  simp only [expectedDigitOf]
  have h : rucSum d % 11 < 11 := Nat.mod_lt _ (by norm_num)
  split_ifs <;> omega

theorem foldl_eq_of_mem (l : List Nat) (f g : Nat → Nat → Nat)
    (h : ∀ a i, i ∈ l → f a i = g a i) : ∀ a, l.foldl f a = l.foldl g a := by
  induction l with
  | nil => intro a; rfl
  | cons x xs ih =>
      intro a
      rw [List.foldl_cons, List.foldl_cons, h a x (List.mem_cons_self ..)]
      exact ih (fun b i hi => h b i (List.mem_cons_of_mem _ hi)) _

theorem rucSum_append_single (d : List Nat) (x : Nat) (h : d.length = 10) :
    rucSum (d ++ [x]) = rucSum d := by
  unfold rucSum
  apply foldl_eq_of_mem
  intro a i hi
  have hi10 : i < 10 := List.mem_range.mp hi
  have : (d ++ [x]).getD i 0 = d.getD i 0 := by
    rw [List.getD_eq_get?, List.getD_eq_get?, List.get?_append (by omega)]
  rw [this]

theorem expectedDigitOf_append_single (d : List Nat) (x : Nat) (h : d.length = 10) :
    expectedDigitOf (d ++ [x]) = expectedDigitOf d := by
  unfold expectedDigitOf
  rw [rucSum_append_single d x h]

theorem getD_append_last (d : List Nat) (x : Nat) (h : d.length = 10) :
    (d ++ [x]).getD 10 0 = x := by
  rw [List.getD_eq_get?, List.get?_append_right (by omega), h]
  rfl

/-! ### Claim theorems -/

/-- C1: `validateRUC` returns true exactly on the strings described by the
specification: after trimming, exactly 11 ASCII decimal digits, the first two
characters one of "10"/"15"/"17"/"20", and the 11th digit equal to the
normalised modulo-11 check digit of the first ten digits under the weights
[5,4,3,2,7,6,5,4,3,2]. -/
theorem validateRUC_iff_spec (s : List Char) : validateRUC s = specValidRUC s := by
  rw [Bool.eq_iff_iff, validateRUC_eq_true_iff]
  unfold specValidRUC
  simp only [Bool.and_eq_true, decide_eq_true_eq, List.all_eq_true, ← rucSum_eq_specRUCSum,
    expectedDigitOf]
  tauto

/-- C2 (amended): `validatePassword` returns true iff the raw, untrimmed
input has length at least 4; no trimming is applied and no upper bound is
enforced. -/
theorem validatePassword_length_only (s : List Char) :
    validatePassword s = true ↔ 4 ≤ s.length := by
  unfold validatePassword
  simp

/-- C2 counterexample: the claim "validatePassword(s) = true iff the trimmed
length of s is between 4 and 100" is false. A 101-character password is
accepted by the code, and a 4-character password consisting of three spaces
and one letter is accepted although its trimmed length is 1. -/
theorem validatePassword_claim_cex :
    (validatePassword (List.replicate 101 'a') = true ∧
      ¬ (4 ≤ (trim (List.replicate 101 'a')).length ∧
          (trim (List.replicate 101 'a')).length ≤ 100)) ∧
    (validatePassword [' ', ' ', ' ', 'a'] = true ∧
      ¬ 4 ≤ (trim [' ', ' ', ' ', 'a']).length) := by
  decide

/-- C3: `getRUCError` returns `none` exactly on the inputs `validateRUC`
accepts; every invalid input receives a (non-null) message. -/
theorem getRUCError_none_iff_valid (s : List Char) :
    getRUCError s = none ↔ validateRUC s = true := by
  rw [getRUCError_eq]
  by_cases hv : validateRUC s = true
  · obtain ⟨h1, h2, h3, -⟩ := (validateRUC_eq_true_iff s).mp hv
    rw [if_neg (by omega), if_neg (by simp [h2]), if_neg (by omega),
      if_neg (by simp [h3]), if_neg (by simp [hv])]
    simp [hv]
  · split_ifs <;> simp_all

/-- C4: `getRUCError` returns the message of the first violated rule in the
fixed order (empty, non-digit, wrong length, wrong two-character start,
checksum), with pairwise distinct messages; in particular an 11-character
input containing a non-digit gets the digits-only message. -/
theorem getRUCError_first_match_order (s : List Char) :
    (getRUCError s =
      (if (trim s).length = 0 then some "El RUC es requerido"
       else if ¬ ((trim s).all Char.isDigit = true) then some "El RUC solo debe contener números"
       else if ¬ ((trim s).length = 11) then some "El RUC debe tener exactamente 11 dígitos"
       else if ¬ ((trim s).take 2 ∈ RUC_VALID_PREFIXES) then some "El RUC debe iniciar con 10, 15, 17 o 20"
       else if ¬ (validateRUC s = true) then some "El RUC ingresado no es válido"
       else none)) ∧
    ["El RUC es requerido", "El RUC solo debe contener números",
     "El RUC debe tener exactamente 11 dígitos", "El RUC debe iniciar con 10, 15, 17 o 20",
     "El RUC ingresado no es válido"].Nodup ∧
    getRUCError ['2', '0', '1', '2', '3', '4', '5', '6', '7', '8', 'a'] =
      some "El RUC solo debe contener números" :=
  ⟨getRUCError_eq s, by decide, by decide⟩

/-- C5: `validateRUC` is total and every array index it takes is in range:
the variant in which every access `digits[i]` / `RUC_FACTORS[i]` /
`digits[10]` is fallible (`none` on out-of-range) agrees with the total
function on every input and never reports an out-of-range access. -/
theorem validateRUC_checked_total (ruc : List Char) :
    validateRUCChecked ruc = some (validateRUC ruc) := by
  unfold validateRUCChecked validateRUC
  by_cases h1 : elevenDigits (trim ruc) = true
  case neg => simp [h1]
  by_cases h2 : (RUC_VALID_PREFIXES.any fun p => startsWith (trim ruc) p) = true
  case neg => simp [h1, h2]
  have hlen : ((trim ruc).map digitVal).length = 11 := by
    unfold elevenDigits at h1
    simp only [Bool.and_eq_true, decide_eq_true_eq] at h1
    simp [h1.1]
  have hsum := rucSumChecked_eq ((trim ruc).map digitVal) (by omega)
  have htlen : (trim ruc).length = 11 := by
    rw [List.length_map] at hlen
    exact hlen
  obtain ⟨c, hc⟩ : ∃ c, (trim ruc)[10]? = some c :=
    ⟨_, List.getElem?_eq_getElem (show 10 < (trim ruc).length by omega)⟩
  simp [h1, h2, hsum, hc, expectedDigitOf]

/-- C6: validity requires a trimmed length of exactly 11, only decimal
digits, and an accepted two-character start. -/
theorem validateRUC_necessary_conditions (s : List Char) (h : validateRUC s = true) :
    (trim s).length = 11 ∧ (∀ c ∈ trim s, c.isDigit = true) ∧
      (trim s).take 2 ∈ RUC_VALID_PREFIXES := by
  obtain ⟨h1, h2, h3, -⟩ := (validateRUC_eq_true_iff s).mp h
  exact ⟨h1, fun c hc => List.all_eq_true.mp h2 c hc, h3⟩

/-- C6 witness at the concrete valid input "20123456786". -/
theorem validateRUC_necessary_conditions_witness :
    validateRUC rucOK = true ∧
    ((trim rucOK).length = 11 ∧ (∀ c ∈ trim rucOK, c.isDigit = true) ∧
      (trim rucOK).take 2 ∈ RUC_VALID_PREFIXES) :=
  ⟨by decide, validateRUC_necessary_conditions rucOK (by decide)⟩

/-- C7: `validateRUC` is a pure function of its input; two invocations on
the same string denote the same value. -/
theorem validateRUC_deterministic (s : List Char) : validateRUC s = validateRUC s := rfl

/-- C8: `validateUsername` accepts exactly trimmed lengths in [3, 50] and
`validateClientName` exactly trimmed lengths in [2, 200]. -/
theorem validateUsername_clientName_bounds (s : List Char) :
    (validateUsername s = true ↔ (3 ≤ (trim s).length ∧ (trim s).length ≤ 50)) ∧
    (validateClientName s = true ↔ (2 ≤ (trim s).length ∧ (trim s).length ≤ 200)) := by
  unfold validateUsername validateClientName
  simp

/-- C9: `validateRUC` and `getRUCError` are invariant under trimming of the
input. -/
theorem validateRUC_getRUCError_trim_invariant (s : List Char) :
    validateRUC (trim s) = validateRUC s ∧ getRUCError (trim s) = getRUCError s := by
  refine ⟨validateRUC_trim s, ?_⟩
  simp only [getRUCError]
  rw [trim_idem]

/-- C10: for any 10-digit body with an accepted two-character start, the
expected check digit (a function of those 10 digits only) is a single digit
0..9, and exactly one digit value appended at position 10 yields a string
accepted by `validateRUC`. -/
theorem ruc_checkDigit_exists_unique (body : List Char)
    (hlen : body.length = 10) (hdig : body.all Char.isDigit = true)
    (hpre : body.take 2 ∈ RUC_VALID_PREFIXES) :
    expectedDigitOf (body.map digitVal) ≤ 9 ∧
    ∃! d : Nat, d ≤ 9 ∧ validateRUC (body ++ [digitToChar d]) = true := by
  have hmaplen : (body.map digitVal).length = 10 := by simp [hlen]
  have key : ∀ d : Nat, d ≤ 9 →
      (validateRUC (body ++ [digitToChar d]) = true ↔
        d = expectedDigitOf (body.map digitVal)) := by
    intro d hd
    obtain ⟨hcdig, hcval, hcws⟩ := digitToChar_spec d hd
    rw [validateRUC_eq_true_iff]
    have htrim : trim (body ++ [digitToChar d]) = body ++ [digitToChar d] := by
      apply trim_of_no_ws
      intro c hc
      rcases List.mem_append.mp hc with hmem | hmem
      · exact digit_not_ws c (List.all_eq_true.mp hdig c hmem)
      · rw [List.mem_singleton] at hmem
        subst hmem
        exact hcws
    rw [htrim]
    have hlen' : (body ++ [digitToChar d]).length = 11 := by simp [hlen]
    have hall : (body ++ [digitToChar d]).all Char.isDigit = true := by
      rw [List.all_append]
      simp only [hdig, Bool.true_and, List.all_cons, List.all_nil, Bool.and_true]
      exact hcdig
    have htake : (body ++ [digitToChar d]).take 2 = body.take 2 :=
      List.take_eq_left_iff.mpr (Or.inr (by omega))
    have hmap : (body ++ [digitToChar d]).map digitVal = body.map digitVal ++ [d] := by
      rw [List.map_append]
      simp [hcval]
    rw [hlen', hall, htake, hmap, expectedDigitOf_append_single _ _ hmaplen,
      getD_append_last _ _ hmaplen]
    simp [hpre, eq_comm]
  refine ⟨expectedDigitOf_le_nine _, ?_⟩
  refine ⟨expectedDigitOf (body.map digitVal),
    ⟨⟨expectedDigitOf_le_nine _, (key _ (expectedDigitOf_le_nine _)).mpr rfl⟩, ?_⟩⟩
  rintro d ⟨hd9, hdv⟩
  exact (key d hd9).mp hdv

/-- C10 witness at the concrete body "2012345678" (expected check digit 6). -/
theorem ruc_checkDigit_exists_unique_witness :
    (rucBody10.length = 10 ∧ rucBody10.all Char.isDigit = true ∧
      rucBody10.take 2 ∈ RUC_VALID_PREFIXES) ∧
    (expectedDigitOf (rucBody10.map digitVal) ≤ 9 ∧
      ∃! d : Nat, d ≤ 9 ∧ validateRUC (rucBody10 ++ [digitToChar d]) = true) :=
  ⟨by decide, ruc_checkDigit_exists_unique rucBody10 (by decide) (by decide) (by decide)⟩

end HMG
